import Mathlib

/-
Verification of the typed-events dispatcher (src/events.ts).

The embedding models the observable behaviour of the single class
`TypedEvents`: registry construction from schemas, the middleware chain,
and the three-tier dispatch algorithm of `processEvent`
(exact phase, namespace phase, wildcard phase), in both call mode
(`collectResults = true`, `Promise.all` joins) and broadcast mode
(`collectResults = false`, `Promise.allSettled` joins).

Promises are modelled by their settlement within the dispatch window:
a handler is `fast` when the promise it returns settles during the
dispatch's own microtask drain (an immediately settling async function),
and slow (`fast = false`) when it is still pending at every await the
dispatch performs (for example a promise resolved from a timer).  With
that distinction the behaviour of each `Promise.all` / `Promise.allSettled`
join, and of the un-awaited `forEach(async …)` namespace phase, is a
deterministic function of the dispatcher and the event, which the
definitions below compute.
-/

namespace TypedEvents

/-- JS `eventName.startsWith(s)`, character by character. -/
def strStartsWith (s pat : String) : Bool := pat.data.isPrefixOf s.data

/-- JS `registeredEvent.endsWith(s)`, character by character. -/
def strEndsWith (s pat : String) : Bool := pat.data.isSuffixOf s.data

/-- Removal of the first occurrence of `pat` from a character list.  JS
`String.prototype.replace` with a plain-string pattern replaces only the
first occurrence; this is the behaviour of `registeredEvent.replace('.*', '')`
in the namespace filter of `processEvent`. -/
def replaceFirstChars (pat : List Char) : List Char → List Char
  | [] => []
  | c :: rest =>
    if pat.isPrefixOf (c :: rest) then (c :: rest).drop pat.length
    else c :: replaceFirstChars pat rest

/-- JS `s.replace(pat, '')` with a plain-string pattern: removes the first
occurrence of `pat`, returns `s` unchanged when `pat` does not occur. -/
def replaceFirst (s pat : String) : String := ⟨replaceFirstChars pat.data s.data⟩

/-- A string with its last two characters removed.  This is the claim
language's "key with the (trailing) namespace marker stripped"; it is used
for comparison with the source's `replace('.*','')`, which strips the first
occurrence instead. -/
def strDropLast2 (s : String) : String := ⟨s.data.take (s.data.length - 2)⟩

/-- Namespace filter of `processEvent`, transliterated:
`registeredEvent.endsWith('.*') && eventName.startsWith(registeredEvent.replace('.*',''))`. -/
def nsMatches (key eventName : String) : Bool :=
  strEndsWith key ".*" && strStartsWith eventName (replaceFirst key ".*")

/-- Matching condition in the words of the spec and of claim C9: the key
ends with the namespace marker and the key with the trailing marker
stripped is a string-prefix of the event name.  Declared only to be
compared with `nsMatches`, the condition the source actually evaluates. -/
def claimNsMatches (key eventName : String) : Bool :=
  strEndsWith key ".*" && strStartsWith eventName (strDropLast2 key)

/-- Observable behaviour of one registered handler: `run payload eventName`
is the settled outcome of the promise the handler returns (`Except.error`
models rejection), and `fast` records whether that promise settles within
the dispatch's microtask drain.  `fast = false` models a handler whose
promise is still pending whenever the dispatch awaits (settling, if ever,
only after the dispatch's own promise has settled). -/
structure Handler (α β ε : Type) where
  fast : Bool
  run  : α → String → Except ε β

/-- Observable behaviour of one middleware: `ok` invokes its continuation
(after which dispatch proceeds), `raise e` throws synchronously inside the
promise executor, rejecting the promise `processEvent` is awaiting. -/
inductive MwBeh (ε : Type) where
  | ok
  | raise (e : ε)
deriving DecidableEq

/-- Handler registry `this.handlers`: a JS object keyed by event name,
modelled as an insertion-ordered association list; each key holds the
ordered array of handlers pushed under it. -/
abbrev Registry (α β ε : Type) := List (String × List (Handler α β ε))

/-- Registration of one handler, as in the constructor body:
`if (!this.handlers[event]) this.handlers[event] = []` followed by
`this.handlers[event].push(handler)`.  A new key is appended at the end
(JS string-keyed objects preserve insertion order); an existing key keeps
its position and its handler array grows at the end. -/
def addHandler (reg : Registry α β ε) (event : String) (h : Handler α β ε) :
    Registry α β ε :=
  match reg with
  | [] => [(event, [h])]
  | (k, hs) :: rest =>
    if k = event then (k, hs ++ [h]) :: rest
    else (k, hs) :: addHandler rest event h

/-- Constructor of `TypedEvents`: iterate the schemas in list order, and
within each schema its entries in definition order, pushing each handler
onto the array for its event name. -/
def buildRegistry (schemas : List (List (String × Handler α β ε))) :
    Registry α β ε :=
  schemas.foldl (fun reg schema => schema.foldl (fun r en => addHandler r en.1 en.2) reg) []

/-- Lookup `this.handlers[event]`, defaulting to the empty array when the
key is absent (the source guards each phase with a truthiness test or with
the namespace filter, and a missing key contributes no handler calls). -/
def handlersFor : Registry α β ε → String → List (Handler α β ε)
  | [], _ => []
  | (k, hs) :: rest, event => if k = event then hs else handlersFor rest event

/-- Dispatcher state: the registry (fixed at construction) and the ordered
middleware list (grown by `use`). -/
structure Dispatcher (α β ε : Type) where
  handlers   : Registry α β ε
  middleware : List (MwBeh ε)

/-- Construction from a schema list: the constructor populates the registry
and leaves the middleware list empty. -/
def mkDispatcher (schemas : List (List (String × Handler α β ε))) :
    Dispatcher α β ε :=
  ⟨buildRegistry schemas, []⟩

/-- The `use` operation: appends one middleware to the chain. -/
def use (d : Dispatcher α β ε) (m : MwBeh ε) : Dispatcher α β ε :=
  { d with middleware := d.middleware ++ [m] }

/-- Settlement of a promise within the dispatch window. -/
inductive Outcome (ε β : Type) where
  | pending
  | rejected (e : ε)
  | resolved (v : β)
deriving DecidableEq

def Outcome.isResolved : Outcome ε β → Bool
  | .resolved _ => true
  | _ => false

def Outcome.isPending : Outcome ε β → Bool
  | .pending => true
  | _ => false

def errOf : Except ε β → Option ε
  | .error e => some e
  | .ok _ => none

def valOf : Except ε β → Option β
  | .ok v => some v
  | .error _ => none

/-- Settled outcomes of one phase's handler invocations, in initiation
order (`handlers.map((handler) => handler(payload, eventName))`). -/
def phaseOutcomes (hs : List (Handler α β ε)) (payload : α) (event : String) :
    List (Bool × Except ε β) :=
  hs.map fun h => (h.fast, h.run payload event)

/-- Behaviour of `Promise.all` over the phase's promises within the
dispatch window: it rejects with the first rejection to settle (promises
that settle within the drain do so in creation order, and a pending
promise never settles first), stays pending while no member has rejected
and some member is pending, and otherwise resolves with the values in
input order. -/
def joinAll (outs : List (Bool × Except ε β)) : Outcome ε (List β) :=
  match (outs.filterMap fun o => if o.1 then errOf o.2 else none).head? with
  | some e => .rejected e
  | none =>
    if outs.all (·.1) then .resolved (outs.filterMap fun o => valOf o.2)
    else .pending

/-- Behaviour of `Promise.allSettled` within the dispatch window: it never
rejects, and resolves once every member has settled. -/
def joinSettled (outs : List (Bool × Except ε β)) : Outcome ε Unit :=
  if outs.all (·.1) then .resolved () else .pending

/-- Index and error of the first middleware that throws, if any; the
middleware loop awaits each `new Promise((resolve) => middleware(... , resolve))`
in order, so the first synchronous throw rejects the dispatch there. -/
def firstRaise : List (MwBeh ε) → Option (Nat × ε)
  | [] => none
  | .ok :: rest => (firstRaise rest).map fun pr => (pr.1 + 1, pr.2)
  | .raise e :: _ => some (0, e)

/-- Namespace keys triggered for an event, in registry iteration order:
`Object.keys(this.handlers).filter(...)` with the `nsMatches` condition. -/
def nsKeys (reg : Registry α β ε) (event : String) : List String :=
  (reg.map (·.1)).filter fun k => nsMatches k event

/-- Settlement of the promise returned by
`processEvent(eventName, payload, true)` (call mode, the body of `call`).
Phase by phase, following the source:
a middleware that throws rejects the dispatch before any handler runs;
the exact phase's `Promise.all` is awaited inside `processEvent`, so its
rejection (or pendence) is the dispatch's own, and on rejection the later
phases never run; the namespace phase runs inside `forEach(async …)` —
`forEach` discards the promise each async callback returns, so a namespace
key's rejection or pendence never reaches the dispatch's promise, and only
a key whose `Promise.all` resolves during the dispatch gets its values
pushed into `results` (the push of a key that settles during the drain
lands before the dispatch's promise is observed by the caller, in key
order, before the wildcard values); the wildcard phase's `Promise.all` is
again awaited inside `processEvent`. -/
def callOutcome (d : Dispatcher α β ε) (event : String) (payload : α) :
    Outcome ε (List β) :=
  match firstRaise d.middleware with
  | some pr => .rejected pr.2
  | none =>
    match joinAll (phaseOutcomes (handlersFor d.handlers event) payload event) with
    | .rejected e => .rejected e
    | .pending => .pending
    | .resolved exactVals =>
      let nsVals := (nsKeys d.handlers event).flatMap fun k =>
        match joinAll (phaseOutcomes (handlersFor d.handlers k) payload event) with
        | .resolved vs => vs
        | _ => []
      match joinAll (phaseOutcomes (handlersFor d.handlers "*") payload event) with
      | .rejected e => .rejected e
      | .pending => .pending
      | .resolved wcVals => .resolved (exactVals ++ nsVals ++ wcVals)

/-- Settlement of the promise returned by
`processEvent(eventName, payload, false)` (broadcast mode, the body of
`emit` and of each `group` entry): the exact and wildcard phases await
`Promise.allSettled`, which resolves once all members settle and never
rejects, so handler rejections never reject the dispatch; the namespace
phase is fire-and-forget exactly as in call mode; `emit` discards the
accumulated outcome markers and resolves with no value. -/
def broadcastOutcome (d : Dispatcher α β ε) (event : String) (payload : α) :
    Outcome ε Unit :=
  match firstRaise d.middleware with
  | some pr => .rejected pr.2
  | none =>
    match joinSettled (phaseOutcomes (handlersFor d.handlers event) payload event) with
    | .pending => .pending
    | _ =>
      joinSettled (phaseOutcomes (handlersFor d.handlers "*") payload event)

/-- Settlement of the promise returned by `group(entries)`:
`Promise.all(entries.map(({event, payload}) => processEvent(event, payload, false)))`.
It rejects when some entry's broadcast dispatch rejects, is pending while
some entry is pending, and resolves once every entry resolves. -/
def groupOutcome (d : Dispatcher α β ε) (entries : List (String × α)) :
    Outcome ε Unit :=
  match (entries.filterMap fun en =>
      match broadcastOutcome d en.1 en.2 with
      | .rejected e => some e
      | _ => none).head? with
  | some e => .rejected e
  | none =>
    if entries.all fun en => (broadcastOutcome d en.1 en.2).isResolved then
      .resolved ()
    else .pending

/-- Dispatch tiers of `processEvent`: exact phase, namespace phase,
wildcard phase. -/
inductive Tier where
  | exactP
  | nsP
  | wcP
deriving DecidableEq

/-- Observable events of one dispatch, in the order the engine's single
task/microtask queue produces them: `mwCall i` is the invocation of the
i-th middleware with `(event, payload, next)`; `hCall tier key i event payload`
is the invocation of the i-th handler stored under `key`, matched in
`tier`, with arguments `(payload, event)`; `joined tier key` is the
settlement of that phase's join. -/
inductive Ev (α : Type) where
  | mwCall (idx : Nat) (event : String) (payload : α)
  | hCall  (tier : Tier) (key : String) (idx : Nat) (event : String) (payload : α)
  | joined (tier : Tier) (key : String)
deriving DecidableEq

def Ev.isMwCall : Ev α → Bool
  | .mwCall _ _ _ => true
  | _ => false

def Ev.isHCallTier (t : Tier) : Ev α → Bool
  | .hCall t' _ _ _ _ => decide (t' = t)
  | _ => false

def Ev.isCallKey (k : String) : Ev α → Bool
  | .hCall _ k' _ _ _ => decide (k' = k)
  | _ => false

/-- Invocation events of one phase: the source initiates every call of the
phase (`handlers.map((handler) => handler(payload, eventName))`) before
awaiting any of them. -/
def phaseCalls (t : Tier) (key : String) (hs : List (Handler α β ε))
    (event : String) (payload : α) : List (Ev α) :=
  (List.range hs.length).map fun i => Ev.hCall t key i event payload

/-- Whether a phase's join settles (resolves or rejects) within the
dispatch window: in call mode the `Promise.all` settles unless it is kept
pending, in broadcast mode the `Promise.allSettled` settles once all
members do. -/
def phaseSettles (collect : Bool) (outs : List (Bool × Except ε β)) : Bool :=
  if collect then !(joinAll outs).isPending else (joinSettled outs).isResolved

/-- Whether the dispatch proceeds past the exact phase: in call mode the
awaited `Promise.all` must resolve (a rejection throws out of
`processEvent`, a pending join suspends it), in broadcast mode the awaited
`Promise.allSettled` must resolve. -/
def exactContinues (collect : Bool) (outs : List (Bool × Except ε β)) : Bool :=
  if collect then (joinAll outs).isResolved else (joinSettled outs).isResolved

/-- Join event of the exact phase: emitted when the phase's join settles
within the dispatch window; no event when the key is absent — the source
skips the phase, and its await, entirely. -/
def exJoinOf (d : Dispatcher α β ε) (event : String) (payload : α)
    (collect : Bool) : List (Ev α) :=
  if (handlersFor d.handlers event).isEmpty then []
  else if phaseSettles collect (phaseOutcomes (handlersFor d.handlers event) payload event) then
    [Ev.joined Tier.exactP event]
  else []

/-- Invocation events of the namespace phase: each `forEach(async …)`
callback runs synchronously up to its await, so every handler of every
matching key is initiated, key by key in registry order. -/
def nsCallsOf (d : Dispatcher α β ε) (event : String) (payload : α) : List (Ev α) :=
  (nsKeys d.handlers event).flatMap fun k =>
    phaseCalls Tier.nsP k (handlersFor d.handlers k) event payload

/-- Invocation events of the wildcard phase. -/
def wcCallsOf (d : Dispatcher α β ε) (event : String) (payload : α) : List (Ev α) :=
  phaseCalls Tier.wcP "*" (handlersFor d.handlers "*") event payload

/-- Join events of the namespace phase: the joins of the keys that settle
within the dispatch window, in key order. -/
def nsJoinsOf (d : Dispatcher α β ε) (event : String) (payload : α)
    (collect : Bool) : List (Ev α) :=
  ((nsKeys d.handlers event).filter fun k =>
      phaseSettles collect (phaseOutcomes (handlersFor d.handlers k) payload event)).map
    fun k => Ev.joined Tier.nsP k

/-- Join event of the wildcard phase, when the phase runs and settles. -/
def wcJoinOf (d : Dispatcher α β ε) (event : String) (payload : α)
    (collect : Bool) : List (Ev α) :=
  if (handlersFor d.handlers "*").isEmpty then []
  else if phaseSettles collect (phaseOutcomes (handlersFor d.handlers "*") payload event) then
    [Ev.joined Tier.wcP "*"]
  else []

/-- Events of a dispatch after the middleware loop, in execution order.
The placement mirrors the source's control flow on the engine's single
queue: the exact phase's calls are initiated and its join awaited; if the
dispatch proceeds, the namespace `forEach(async …)` callbacks each run
synchronously up to their await, so every namespace call is initiated,
and then — still in the same synchronous segment, because `forEach` does
not await its callbacks — the wildcard calls are initiated.  Only
afterwards, at the next microtask checkpoint, can the namespace joins
settle (their `Promise.all`s were created before the wildcard one, so the
ones that settle in the drain do so first, in key order), followed by the
wildcard join. -/
def handlerPhase (d : Dispatcher α β ε) (event : String) (payload : α)
    (collect : Bool) : List (Ev α) :=
  phaseCalls Tier.exactP event (handlersFor d.handlers event) event payload
    ++ exJoinOf d event payload collect
    ++ (if exactContinues collect (phaseOutcomes (handlersFor d.handlers event) payload event) then
          nsCallsOf d event payload ++ wcCallsOf d event payload
            ++ nsJoinsOf d event payload collect ++ wcJoinOf d event payload collect
        else [])

/-- Events of one dispatch, middleware included: the middleware loop runs
strictly sequentially, each middleware invoked once in registration order;
a middleware that throws is itself invoked and then rejects the dispatch,
so nothing after it runs. -/
def dispatchTrace (d : Dispatcher α β ε) (event : String) (payload : α)
    (collect : Bool) : List (Ev α) :=
  match firstRaise d.middleware with
  | some pr => (List.range (pr.1 + 1)).map fun i => Ev.mwCall i event payload
  | none =>
    ((List.range d.middleware.length).map fun i => Ev.mwCall i event payload)
      ++ handlerPhase d event payload collect

/-- Handlers a schema list registers under one event name, in
registration order (schemas in list order, entries in definition order). -/
def registeredFor (schemas : List (List (String × Handler α β ε)))
    (event : String) : List (Handler α β ε) :=
  schemas.flatMap fun schema =>
    (schema.filter fun en => decide (en.1 = event)).map (·.2)

/-- Every handler of the registry settles within the dispatch window. -/
def allFastB (reg : Registry α β ε) : Bool :=
  reg.all fun en => en.2.all (·.fast)

/-- Every handler matched by the dispatch of `event` appears in the
dispatch's trace, with the original payload and the concrete event name
as arguments: the exact-tier handlers, the handlers of every triggered
namespace key, and the wildcard handlers. -/
def allMatchedCalled (d : Dispatcher α β ε) (event : String) (payload : α)
    (collect : Bool) : Prop :=
  (∀ i < (handlersFor d.handlers event).length,
      Ev.hCall Tier.exactP event i event payload ∈ dispatchTrace d event payload collect)
  ∧ (∀ k ∈ nsKeys d.handlers event, ∀ i < (handlersFor d.handlers k).length,
      Ev.hCall Tier.nsP k i event payload ∈ dispatchTrace d event payload collect)
  ∧ (∀ i < (handlersFor d.handlers "*").length,
      Ev.hCall Tier.wcP "*" i event payload ∈ dispatchTrace d event payload collect)

/-- Handler that resolves with its payload within the dispatch window. -/
def hOk : Handler Nat Nat Nat := ⟨true, fun p _ => .ok p⟩

/-- Handler that rejects with error 7 within the dispatch window. -/
def hRej : Handler Nat Nat Nat := ⟨true, fun _ _ => .error 7⟩

/-- Handler whose promise resolves with 42 only after the dispatch window
(for example from a timer). -/
def hSlow : Handler Nat Nat Nat := ⟨false, fun _ _ => .ok 42⟩

/-- Dispatcher with a single rejecting handler under the namespace key
`"ns.*"` and no middleware. -/
def dNsRej : Dispatcher Nat Nat Nat := ⟨[("ns.*", [hRej])], []⟩

/-- Dispatcher with one handler under `"ns.*"` and one under `"*"`. -/
def dNsWc : Dispatcher Nat Nat Nat := ⟨[("ns.*", [hOk]), ("*", [hOk])], []⟩

/-- Dispatcher with a single slow handler under `"ns.*"`. -/
def dNsSlow : Dispatcher Nat Nat Nat := ⟨[("ns.*", [hSlow])], []⟩

/-- Dispatcher with a single handler under the key `"a.*.b.*"`, whose
namespace marker also occurs in the middle of the key. -/
def dDoubleStar : Dispatcher Nat Nat Nat := ⟨[("a.*.b.*", [hOk])], []⟩

/-- Length of a phase's invocation-event list. -/
lemma length_phaseCalls (t : Tier) (k : String) (hs : List (Handler α β ε))
    (e : String) (p : α) : (phaseCalls t k hs e p).length = hs.length := by
  simp [phaseCalls]

lemma mem_phaseCalls_iff {t t' : Tier} {k k' : String} {i : Nat} {e e' : String}
    {p p' : α} {hs : List (Handler α β ε)} :
    Ev.hCall t' k' i e' p' ∈ phaseCalls t k hs e p
      ↔ t' = t ∧ k' = k ∧ i < hs.length ∧ e' = e ∧ p' = p := by
  simp only [phaseCalls, List.mem_map, List.mem_range]
  constructor
  · rintro ⟨j, hj, hEq⟩
    cases hEq
    exact ⟨rfl, rfl, hj, rfl, rfl⟩
  · rintro ⟨rfl, rfl, hi, rfl, rfl⟩
    exact ⟨i, hi, rfl⟩

lemma filter_tier_phaseCalls (t t' : Tier) (k : String) (hs : List (Handler α β ε))
    (e : String) (p : α) :
    (phaseCalls t k hs e p).filter (Ev.isHCallTier t')
      = if t = t' then phaseCalls t k hs e p else [] := by
  by_cases h : t = t'
  · rw [if_pos h]
    refine List.filter_eq_self.mpr fun ev hev => ?_
    simp only [phaseCalls, List.mem_map] at hev
    obtain ⟨i, _, rfl⟩ := hev
    simp [Ev.isHCallTier, h]
  · rw [if_neg h]
    refine List.filter_eq_nil_iff.mpr fun ev hev => ?_
    simp only [phaseCalls, List.mem_map] at hev
    obtain ⟨i, _, rfl⟩ := hev
    simp [Ev.isHCallTier, h]

lemma filter_key_phaseCalls (t : Tier) (k k' : String) (hs : List (Handler α β ε))
    (e : String) (p : α) :
    (phaseCalls t k hs e p).filter (Ev.isCallKey k')
      = if k = k' then phaseCalls t k hs e p else [] := by
  by_cases h : k = k'
  · rw [if_pos h]
    refine List.filter_eq_self.mpr fun ev hev => ?_
    simp only [phaseCalls, List.mem_map] at hev
    obtain ⟨i, _, rfl⟩ := hev
    simp [Ev.isCallKey, h]
  · rw [if_neg h]
    refine List.filter_eq_nil_iff.mpr fun ev hev => ?_
    simp only [phaseCalls, List.mem_map] at hev
    obtain ⟨i, _, rfl⟩ := hev
    simp [Ev.isCallKey, h]

lemma isMwCall_phaseCalls {ev : Ev α} {t : Tier} {k : String}
    {hs : List (Handler α β ε)} {e : String} {p : α}
    (h : ev ∈ phaseCalls t k hs e p) : ev.isMwCall = false := by
  simp only [phaseCalls, List.mem_map] at h
  obtain ⟨j, _, hEq⟩ := h
  subst hEq
  rfl

lemma mem_exJoinOf {ev : Ev α} {d : Dispatcher α β ε} {e : String} {p : α} {c : Bool}
    (h : ev ∈ exJoinOf d e p c) : ev = Ev.joined Tier.exactP e := by
  unfold exJoinOf at h
  split at h
  · simp at h
  · split at h
    · simpa using h
    · simp at h

lemma mem_nsJoinsOf {ev : Ev α} {d : Dispatcher α β ε} {e : String} {p : α} {c : Bool}
    (h : ev ∈ nsJoinsOf d e p c) : ∃ k, ev = Ev.joined Tier.nsP k := by
  unfold nsJoinsOf at h
  simp only [List.mem_map] at h
  obtain ⟨k, _, hEq⟩ := h
  exact ⟨k, hEq.symm⟩

lemma mem_wcJoinOf {ev : Ev α} {d : Dispatcher α β ε} {e : String} {p : α} {c : Bool}
    (h : ev ∈ wcJoinOf d e p c) : ev = Ev.joined Tier.wcP "*" := by
  unfold wcJoinOf at h
  split at h
  · simp at h
  · split at h
    · simpa using h
    · simp at h

lemma filter_joined_nil {l : List (Ev α)} {q : Ev α → Bool}
    (hl : ∀ ev ∈ l, ∃ t k, ev = Ev.joined t k)
    (hq : ∀ t k, q (Ev.joined t k) = false) : l.filter q = [] := by
  refine List.filter_eq_nil_iff.mpr fun ev hev => ?_
  obtain ⟨t, k, rfl⟩ := hl ev hev
  simp [hq]

lemma filter_exJoinOf (d : Dispatcher α β ε) (e : String) (p : α) (c : Bool)
    {q : Ev α → Bool} (hq : ∀ t k, q (Ev.joined t k) = false) :
    (exJoinOf d e p c).filter q = [] :=
  filter_joined_nil (fun _ h => ⟨Tier.exactP, e, mem_exJoinOf h⟩) hq

lemma filter_nsJoinsOf (d : Dispatcher α β ε) (e : String) (p : α) (c : Bool)
    {q : Ev α → Bool} (hq : ∀ t k, q (Ev.joined t k) = false) :
    (nsJoinsOf d e p c).filter q = [] :=
  filter_joined_nil
    (fun ev h => by obtain ⟨k, rfl⟩ := mem_nsJoinsOf h; exact ⟨Tier.nsP, k, rfl⟩) hq

lemma filter_wcJoinOf (d : Dispatcher α β ε) (e : String) (p : α) (c : Bool)
    {q : Ev α → Bool} (hq : ∀ t k, q (Ev.joined t k) = false) :
    (wcJoinOf d e p c).filter q = [] :=
  filter_joined_nil (fun _ h => ⟨Tier.wcP, "*", mem_wcJoinOf h⟩) hq

lemma filter_mwCalls {n : Nat} {e : String} {p : α} {q : Ev α → Bool}
    (hq : ∀ i, q (Ev.mwCall i e p) = false) :
    ((List.range n).map fun i => Ev.mwCall i e p).filter q = [] := by
  refine List.filter_eq_nil_iff.mpr fun ev hev => ?_
  simp only [List.mem_map] at hev
  obtain ⟨i, _, rfl⟩ := hev
  simp [hq]

lemma phaseOutcomes_all_fast (hs : List (Handler α β ε)) (p : α) (e : String) :
    (phaseOutcomes hs p e).all (·.1) = hs.all (·.fast) := by
  induction hs with
  | nil => rfl
  | cons h t ih => simp only [phaseOutcomes, List.map_cons, List.all_cons] at ih ⊢; rw [ih]

lemma joinSettled_of_fast {hs : List (Handler α β ε)} {p : α} {e : String}
    (h : hs.all (·.fast) = true) :
    joinSettled (phaseOutcomes hs p e) = Outcome.resolved () := by
  rw [joinSettled, phaseOutcomes_all_fast, h, if_pos rfl]

lemma exactContinues_broadcast_of_fast {hs : List (Handler α β ε)} {p : α} {e : String}
    (h : hs.all (·.fast) = true) :
    exactContinues false (phaseOutcomes hs p e) = true := by
  rw [exactContinues, if_neg (by simp), joinSettled_of_fast h]
  rfl

lemma handlersFor_all_fast (reg : Registry α β ε) (hfast : allFastB reg = true)
    (k : String) : (handlersFor reg k).all (·.fast) = true := by
  induction reg with
  | nil => rfl
  | cons en rest ih =>
    obtain ⟨k0, hs0⟩ := en
    rw [allFastB, List.all_cons, Bool.and_eq_true] at hfast
    by_cases hk : k0 = k
    · rw [handlersFor, if_pos hk]
      exact hfast.1
    · rw [handlersFor, if_neg hk]
      exact ih hfast.2

lemma handlersFor_addHandler (reg : Registry α β ε) (k e : String) (h : Handler α β ε) :
    handlersFor (addHandler reg k h) e
      = if k = e then handlersFor reg e ++ [h] else handlersFor reg e := by
  induction reg with
  | nil =>
    by_cases hk : k = e <;> simp [addHandler, handlersFor, hk]
  | cons en rest ih =>
    obtain ⟨k0, hs0⟩ := en
    by_cases h0 : k0 = k
    · subst h0
      rw [addHandler, if_pos rfl]
      by_cases he : k0 = e
      · rw [handlersFor, if_pos he, if_pos he, handlersFor, if_pos he]
      · rw [handlersFor, if_neg he, if_neg he, handlersFor, if_neg he]
    · rw [addHandler, if_neg h0]
      by_cases he : k0 = e
      · have hke : ¬ k = e := fun hh => h0 (he.trans hh.symm)
        rw [handlersFor, if_pos he, if_neg hke, handlersFor, if_pos he]
      · rw [handlersFor, if_neg he, ih, handlersFor, if_neg he]

lemma handlersFor_foldl_schema (schema : List (String × Handler α β ε))
    (reg : Registry α β ε) (e : String) :
    handlersFor (schema.foldl (fun r en => addHandler r en.1 en.2) reg) e
      = handlersFor reg e
        ++ (schema.filter fun en => decide (en.1 = e)).map (·.2) := by
  induction schema generalizing reg with
  | nil => simp
  | cons en rest ih =>
    rw [List.foldl_cons, ih, handlersFor_addHandler]
    by_cases h : en.1 = e
    · rw [if_pos h, List.filter_cons_of_pos (by simp [h]), List.map_cons,
        List.append_assoc, List.singleton_append]
    · rw [if_neg h, List.filter_cons_of_neg (by simp [h])]

lemma handlersFor_buildRegistry (schemas : List (List (String × Handler α β ε)))
    (e : String) :
    handlersFor (buildRegistry schemas) e = registeredFor schemas e := by
  suffices h : ∀ reg : Registry α β ε,
      handlersFor (schemas.foldl
        (fun r schema => schema.foldl (fun r' en => addHandler r' en.1 en.2) r) reg) e
      = handlersFor reg e ++ registeredFor schemas e by
    simpa using h []
  induction schemas with
  | nil => intro reg; simp [registeredFor]
  | cons s rest ih =>
    intro reg
    rw [List.foldl_cons, ih, handlersFor_foldl_schema, List.append_assoc]
    simp only [registeredFor, List.flatMap_cons]

lemma broadcast_resolved (d : Dispatcher α β ε) (e : String) (p : α)
    (hmw : firstRaise d.middleware = none) (hfast : allFastB d.handlers = true) :
    broadcastOutcome d e p = Outcome.resolved () := by
  rw [broadcastOutcome, hmw]
  rw [joinSettled_of_fast (handlersFor_all_fast d.handlers hfast e)]
  exact joinSettled_of_fast (handlersFor_all_fast d.handlers hfast "*")

lemma dispatchTrace_of_ok {d : Dispatcher α β ε} {e : String} {p : α} {c : Bool}
    (hmw : firstRaise d.middleware = none) :
    dispatchTrace d e p c
      = ((List.range d.middleware.length).map fun i => Ev.mwCall i e p)
        ++ handlerPhase d e p c := by
  rw [dispatchTrace, hmw]

lemma handlerPhase_continues {d : Dispatcher α β ε} {e : String} {p : α} {c : Bool}
    (hc : exactContinues c (phaseOutcomes (handlersFor d.handlers e) p e) = true) :
    handlerPhase d e p c
      = phaseCalls Tier.exactP e (handlersFor d.handlers e) e p
        ++ exJoinOf d e p c
        ++ (nsCallsOf d e p ++ wcCallsOf d e p ++ nsJoinsOf d e p c ++ wcJoinOf d e p c) := by
  rw [handlerPhase, if_pos hc]

lemma allMatchedCalled_broadcast (d : Dispatcher α β ε) (e : String) (p : α)
    (hmw : firstRaise d.middleware = none)
    (hfastEx : (handlersFor d.handlers e).all (·.fast) = true) :
    allMatchedCalled d e p false := by
  have hc := exactContinues_broadcast_of_fast (p := p) (e := e) hfastEx
  have htr := dispatchTrace_of_ok (d := d) (e := e) (p := p) (c := false) hmw
  rw [handlerPhase_continues hc] at htr
  refine ⟨fun i hi => ?_, fun k hk i hi => ?_, fun i hi => ?_⟩
  · rw [htr]
    exact List.mem_append_right _ (List.mem_append_left _ (List.mem_append_left _
      (mem_phaseCalls_iff.mpr ⟨rfl, rfl, hi, rfl, rfl⟩)))
  · rw [htr]
    refine List.mem_append_right _ (List.mem_append_right _ (List.mem_append_left _
      (List.mem_append_left _ (List.mem_append_left _ ?_))))
    rw [nsCallsOf]
    exact List.mem_flatMap.mpr ⟨k, hk, mem_phaseCalls_iff.mpr ⟨rfl, rfl, hi, rfl, rfl⟩⟩
  · rw [htr]
    refine List.mem_append_right _ (List.mem_append_right _ (List.mem_append_left _
      (List.mem_append_left _ (List.mem_append_right _ ?_))))
    rw [wcCallsOf]
    exact mem_phaseCalls_iff.mpr ⟨rfl, rfl, hi, rfl, rfl⟩

lemma nsKeys_endsWith {reg : Registry α β ε} {e k : String}
    (hk : k ∈ nsKeys reg e) : strEndsWith k ".*" = true := by
  rw [nsKeys] at hk
  have := (List.mem_filter.mp hk).2
  rw [nsMatches, Bool.and_eq_true] at this
  exact this.1

lemma strEndsWith_marker_ne_star {k : String} (h : strEndsWith k ".*" = true) :
    k ≠ "*" := by
  intro hk
  subst hk
  simp [strEndsWith, List.isSuffixOf] at h

lemma nsKeys_ne_star {reg : Registry α β ε} {e k : String}
    (hk : k ∈ nsKeys reg e) : k ≠ "*" :=
  strEndsWith_marker_ne_star (nsKeys_endsWith hk)

lemma filter_nsCallsOf_tier_ne {d : Dispatcher α β ε} {e : String} {p : α}
    {t : Tier} (ht : ¬ Tier.nsP = t) :
    (nsCallsOf d e p).filter (Ev.isHCallTier t) = [] := by
  rw [nsCallsOf, List.filter_flatMap]
  refine List.flatMap_eq_nil_iff.mpr fun k _ => ?_
  rw [filter_tier_phaseCalls, if_neg ht]

lemma filter_nsCallsOf_key {d : Dispatcher α β ε} {e : String} {p : α}
    {k' : String} (hk' : ∀ k ∈ nsKeys d.handlers e, ¬ k = k') :
    (nsCallsOf d e p).filter (Ev.isCallKey k') = [] := by
  rw [nsCallsOf, List.filter_flatMap]
  refine List.flatMap_eq_nil_iff.mpr fun k hk => ?_
  rw [filter_key_phaseCalls, if_neg (hk' k hk)]

lemma filter_exact_trace (d : Dispatcher α β ε) (e : String) (p : α) (c : Bool)
    (hmw : firstRaise d.middleware = none) :
    (dispatchTrace d e p c).filter (Ev.isHCallTier Tier.exactP)
      = phaseCalls Tier.exactP e (handlersFor d.handlers e) e p := by
  rw [dispatchTrace_of_ok hmw, List.filter_append,
    filter_mwCalls (fun i => rfl), List.nil_append]
  rw [handlerPhase, List.filter_append, List.filter_append,
    filter_tier_phaseCalls, if_pos rfl,
    filter_exJoinOf d e p c (fun t k => rfl)]
  rw [List.append_nil]
  split
  · rw [List.filter_append, List.filter_append, List.filter_append,
      filter_nsCallsOf_tier_ne (by simp),
      filter_nsJoinsOf d e p c (fun t k => rfl),
      filter_wcJoinOf d e p c (fun t k => rfl)]
    rw [wcCallsOf, filter_tier_phaseCalls, if_neg (by simp)]
    simp
  · simp

lemma filter_star_trace (d : Dispatcher α β ε) (e : String) (p : α)
    (hne : e ≠ "*") (hmw : firstRaise d.middleware = none)
    (hfastEx : (handlersFor d.handlers e).all (·.fast) = true) :
    (dispatchTrace d e p false).filter (Ev.isCallKey "*") = wcCallsOf d e p := by
  have hc := exactContinues_broadcast_of_fast (p := p) (e := e) hfastEx
  rw [dispatchTrace_of_ok hmw, handlerPhase_continues hc, List.filter_append,
    filter_mwCalls (fun i => rfl), List.nil_append,
    List.filter_append, List.filter_append,
    filter_key_phaseCalls, if_neg hne,
    filter_exJoinOf d e p false (fun t k => rfl),
    List.filter_append, List.filter_append, List.filter_append,
    filter_nsCallsOf_key (fun k hk => nsKeys_ne_star hk),
    filter_nsJoinsOf d e p false (fun t k => rfl),
    filter_wcJoinOf d e p false (fun t k => rfl)]
  rw [wcCallsOf, filter_key_phaseCalls, if_pos rfl]
  simp [wcCallsOf]

lemma filter_nsCallsOf_tier_self (d : Dispatcher α β ε) (e : String) (p : α) :
    (nsCallsOf d e p).filter (Ev.isHCallTier Tier.nsP) = nsCallsOf d e p := by
  rw [nsCallsOf, List.filter_flatMap]
  refine congrArg _ (funext fun k => ?_)
  rw [filter_tier_phaseCalls, if_pos rfl]

lemma filter_ns_trace (d : Dispatcher α β ε) (e : String) (p : α)
    (hmw : firstRaise d.middleware = none)
    (hfastEx : (handlersFor d.handlers e).all (·.fast) = true) :
    (dispatchTrace d e p false).filter (Ev.isHCallTier Tier.nsP) = nsCallsOf d e p := by
  have hc := exactContinues_broadcast_of_fast (p := p) (e := e) hfastEx
  rw [dispatchTrace_of_ok hmw, handlerPhase_continues hc, List.filter_append,
    filter_mwCalls (fun i => rfl), List.nil_append,
    List.filter_append, List.filter_append,
    filter_tier_phaseCalls, if_neg (by simp),
    filter_exJoinOf d e p false (fun t k => rfl),
    List.filter_append, List.filter_append, List.filter_append,
    filter_nsCallsOf_tier_self,
    filter_nsJoinsOf d e p false (fun t k => rfl),
    filter_wcJoinOf d e p false (fun t k => rfl)]
  rw [wcCallsOf, filter_tier_phaseCalls, if_neg (by simp)]
  simp

lemma flatMap_ite_nil {γ : Type} {ks : List String} {k : String}
    (f : String → List γ) (h : k ∉ ks) :
    (ks.flatMap fun k' => if k' = k then f k' else []) = [] := by
  induction ks with
  | nil => rfl
  | cons a rest ih =>
    rw [List.flatMap_cons,
      if_neg (fun hak => h (List.mem_cons.mpr (Or.inl hak.symm))),
      List.nil_append]
    exact ih fun hk => h (List.mem_cons_of_mem a hk)

lemma flatMap_ite_single {γ : Type} {ks : List String} {k : String}
    (f : String → List γ) (hnd : ks.Nodup) (hk : k ∈ ks) :
    (ks.flatMap fun k' => if k' = k then f k' else []) = f k := by
  induction ks with
  | nil => cases hk
  | cons a rest ih =>
    rw [List.nodup_cons] at hnd
    rcases List.mem_cons.mp hk with h | h
    · rw [List.flatMap_cons, if_pos h.symm, flatMap_ite_nil f (h ▸ hnd.1),
        List.append_nil]
      rw [h]
    · have ha : ¬ a = k := fun hak => hnd.1 (hak ▸ h)
      rw [List.flatMap_cons, if_neg ha, List.nil_append]
      exact ih hnd.2 h

lemma take_isPrefixOf (l : List Char) (n : Nat) : (l.take n).isPrefixOf l = true := by
  induction l generalizing n with
  | nil => cases n <;> rfl
  | cons a t ih =>
    cases n with
    | zero => rfl
    | succ m => simp [List.take_succ_cons, List.isPrefixOf, ih]

lemma strStartsWith_dropLast2 (k : String) : strStartsWith k (strDropLast2 k) = true :=
  take_isPrefixOf k.data (k.data.length - 2)

lemma group_resolved (d : Dispatcher α β ε) (entries : List (String × α))
    (hmw : firstRaise d.middleware = none) (hfast : allFastB d.handlers = true) :
    groupOutcome d entries = Outcome.resolved () := by
  have hres : ∀ en ∈ entries, broadcastOutcome d en.1 en.2 = Outcome.resolved () :=
    fun en _ => broadcast_resolved d en.1 en.2 hmw hfast
  have h1 : (entries.filterMap fun en =>
      match broadcastOutcome d en.1 en.2 with
      | .rejected e => some e
      | _ => none) = [] := by
    refine List.filterMap_eq_nil_iff.mpr fun en hen => ?_
    rw [hres en hen]
  rw [groupOutcome, h1]
  have h2 : (entries.all fun en => (broadcastOutcome d en.1 en.2).isResolved) = true := by
    refine List.all_eq_true.mpr fun en hen => ?_
    rw [hres en hen]
    rfl
  simp [h2]

lemma filter_key_trace_marker (d : Dispatcher α β ε) (k : String) (p : α)
    (hmw : firstRaise d.middleware = none)
    (hnd : (d.handlers.map (·.1)).Nodup)
    (hk : k ∈ d.handlers.map (·.1))
    (hmatch : nsMatches k k = true)
    (hfastEx : (handlersFor d.handlers k).all (·.fast) = true) :
    (dispatchTrace d k p false).filter (Ev.isCallKey k)
      = phaseCalls Tier.exactP k (handlersFor d.handlers k) k p
        ++ phaseCalls Tier.nsP k (handlersFor d.handlers k) k p := by
  have hend : strEndsWith k ".*" = true := by
    have h := hmatch
    rw [nsMatches, Bool.and_eq_true] at h
    exact h.1
  have hstar : ¬ ("*" : String) = k :=
    fun h => strEndsWith_marker_ne_star hend h.symm
  have hc := exactContinues_broadcast_of_fast (p := p) (e := k) hfastEx
  have hnsfilter : (nsCallsOf d k p).filter (Ev.isCallKey k)
      = phaseCalls Tier.nsP k (handlersFor d.handlers k) k p := by
    rw [nsCallsOf, List.filter_flatMap]
    have heach : (fun k' => (phaseCalls Tier.nsP k' (handlersFor d.handlers k') k p).filter
        (Ev.isCallKey k))
        = fun k' => if k' = k
            then phaseCalls Tier.nsP k' (handlersFor d.handlers k') k p else [] :=
      funext fun k' => filter_key_phaseCalls Tier.nsP k' k (handlersFor d.handlers k') k p
    rw [heach]
    exact flatMap_ite_single _ (List.Nodup.filter _ hnd)
      (List.mem_filter.mpr ⟨hk, hmatch⟩)
  rw [dispatchTrace_of_ok hmw, handlerPhase_continues hc, List.filter_append,
    filter_mwCalls (fun i => rfl), List.nil_append,
    List.filter_append, List.filter_append,
    filter_key_phaseCalls, if_pos rfl,
    filter_exJoinOf d k p false (fun t k' => rfl),
    List.filter_append, List.filter_append, List.filter_append,
    hnsfilter,
    filter_nsJoinsOf d k p false (fun t k' => rfl),
    filter_wcJoinOf d k p false (fun t k' => rfl)]
  rw [wcCallsOf, filter_key_phaseCalls, if_neg hstar]
  simp

/-- Dispatcher used to witness the middleware claim: one handler, two
well-behaved middleware. -/
def dW5 : Dispatcher Nat Nat Nat := ⟨[("e", [hOk])], [MwBeh.ok, MwBeh.ok]⟩

/-- Dispatcher used to witness emit isolation: the exact handler of `"a"`
rejects while a namespace key and a wildcard key also match. -/
def dW6 : Dispatcher Nat Nat Nat := ⟨[("a", [hRej]), ("a.*", [hOk]), ("*", [hOk])], []⟩

/-- Dispatcher used to witness group independence: the handler of `"e"`
rejects while the handler of `"f"` resolves. -/
def dW7 : Dispatcher Nat Nat Nat := ⟨[("e", [hRej]), ("f", [hOk])], []⟩

/-- Dispatcher used to witness the wildcard claim: an event matching all
three tiers. -/
def dW8 : Dispatcher Nat Nat Nat := ⟨[("u.c", [hOk]), ("u.*", [hOk]), ("*", [hOk])], []⟩

/-- Dispatcher used to witness namespace matching: one matching and one
non-matching namespace key. -/
def dW9 : Dispatcher Nat Nat Nat := ⟨[("ns.*", [hOk]), ("other.*", [hOk])], []⟩

/-- Dispatcher used to witness the double invocation of a marker-named
key: two handlers under `"user.*"`. -/
def dW10 : Dispatcher Nat Nat Nat := ⟨[("user.*", [hOk, hOk])], []⟩

/-- C1 (refuted, code bug): the claim says that whenever any handler
invoked during the dispatch — exact, namespace or wildcard tier — rejects,
the promise returned by `call` rejects.  On the code this fails for the
namespace tier: with a single rejecting handler registered under `"ns.*"`
and no middleware, `call("ns.foo", 0)` invokes that handler (it appears in
the dispatch trace) and the handler rejects, yet the dispatch resolves
with `[]` — the namespace phase runs inside `forEach(async …)`, whose
promise `forEach` discards, so the rejection of its `Promise.all` never
reaches `processEvent` (it becomes an unhandled promise rejection). -/
theorem c1_call_ns_rejection_swallowed :
    errOf (hRej.run 0 "ns.foo") = some 7
    ∧ Ev.hCall Tier.nsP "ns.*" 0 "ns.foo" 0 ∈ dispatchTrace dNsRej "ns.foo" 0 true
    ∧ callOutcome dNsRej "ns.foo" 0 = Outcome.resolved [] := by decide

/-- C2 (refuted, code bug): the claim says the namespace phase fully
completes, including its join, before the wildcard phase begins.  On the
code the wildcard handlers are initiated synchronously right after the
namespace handlers, while the namespace `forEach(async …)` callbacks are
still suspended at their awaits: in the dispatch of `"ns.x"` against a
registry with keys `"ns.*"` and `"*"`, the wildcard handler invocation
precedes the namespace join in the trace. -/
theorem c2_wildcard_before_ns_join :
    dispatchTrace dNsWc "ns.x" 5 false
      = [Ev.hCall Tier.nsP "ns.*" 0 "ns.x" 5, Ev.hCall Tier.wcP "*" 0 "ns.x" 5,
         Ev.joined Tier.nsP "ns.*", Ev.joined Tier.wcP "*"]
    ∧ (dispatchTrace dNsWc "ns.x" 5 false).indexOf (Ev.hCall Tier.wcP "*" 0 "ns.x" 5)
        < (dispatchTrace dNsWc "ns.x" 5 false).indexOf (Ev.joined Tier.nsP "ns.*") := by
  decide

/-- C3 (refuted, code bug): the claim says that when no invoked handler
rejects, `call` resolves with the concatenated values of all matched
handlers — exact, then namespace, then wildcard.  On the code a namespace
key's values are pushed only if its un-awaited `Promise.all` happens to
settle before the dispatch's own promise: with a single handler under
`"ns.*"` that resolves 42 only after the dispatch window,
`call("ns.foo", 1)` invokes the handler, no handler rejects, and the
dispatch nevertheless resolves with `[]` instead of `[42]`. -/
theorem c3_call_drops_ns_results :
    valOf (hSlow.run 1 "ns.foo") = some 42
    ∧ Ev.hCall Tier.nsP "ns.*" 0 "ns.foo" 1 ∈ dispatchTrace dNsSlow "ns.foo" 1 true
    ∧ callOutcome dNsSlow "ns.foo" 1 = Outcome.resolved [] := by decide

/-- C4 (confirmed): construction iterates the schemas in list order and
each schema's entries in definition order, appending each handler to the
sequence for its event name, so the registry sequence for any name is
exactly the handlers registered for that name, duplicates across schemas
included; and on a dispatch of that name the exact phase invokes exactly
as many handlers as were registered (the constructor installs no
middleware, so no hypothesis is needed). -/
theorem c4_registration (schemas : List (List (String × Handler α β ε)))
    (e : String) (p : α) (c : Bool) :
    handlersFor (mkDispatcher schemas).handlers e = registeredFor schemas e
    ∧ ((dispatchTrace (mkDispatcher schemas) e p c).filter
        (Ev.isHCallTier Tier.exactP)).length = (registeredFor schemas e).length := by
  constructor
  · exact handlersFor_buildRegistry schemas e
  · rw [filter_exact_trace (mkDispatcher schemas) e p c rfl, length_phaseCalls]
    rw [show (mkDispatcher schemas).handlers = buildRegistry schemas from rfl,
      handlersFor_buildRegistry schemas e]

/-- C5 (confirmed): when no middleware throws, every dispatch trace starts
with the middleware invocations — each registered middleware invoked
exactly once, in registration order, with the event name and payload —
and everything after them contains no middleware invocation, so all
middleware complete strictly before any handler runs (the model's
sequential trace reflects that middleware n+1 runs only once middleware n
has invoked its continuation). -/
theorem c5_middleware_first (d : Dispatcher α β ε) (e : String) (p : α) (c : Bool)
    (hmw : firstRaise d.middleware = none) :
    dispatchTrace d e p c
      = ((List.range d.middleware.length).map fun i => Ev.mwCall i e p)
        ++ handlerPhase d e p c
    ∧ ∀ ev ∈ handlerPhase d e p c, ev.isMwCall = false := by
  refine ⟨dispatchTrace_of_ok hmw, fun ev hev => ?_⟩
  rw [handlerPhase] at hev
  rcases List.mem_append.mp hev with h | h
  · rcases List.mem_append.mp h with h' | h'
    · exact isMwCall_phaseCalls h'
    · rw [mem_exJoinOf h']
      rfl
  · split at h
    · rcases List.mem_append.mp h with h' | h'
      · rcases List.mem_append.mp h' with h'' | h''
        · rcases List.mem_append.mp h'' with h3 | h3
          · rw [nsCallsOf] at h3
            obtain ⟨k, _, h4⟩ := List.mem_flatMap.mp h3
            exact isMwCall_phaseCalls h4
          · exact isMwCall_phaseCalls h3
        · obtain ⟨k, rfl⟩ := mem_nsJoinsOf h''
          rfl
      · rw [mem_wcJoinOf h']
        rfl
    · cases h

/-- C6 (confirmed): when no middleware throws and every registered
handler's promise settles within the dispatch window, `emit` resolves
with no value — no constraint is placed on the handlers' outcomes, so a
rejecting handler never rejects the emit — and every matched handler of
every tier (exact, namespace, wildcard) is still invoked with the
original payload and event name. -/
theorem c6_emit_isolates_failures (d : Dispatcher α β ε) (e : String) (p : α)
    (hmw : firstRaise d.middleware = none) (hfast : allFastB d.handlers = true) :
    broadcastOutcome d e p = Outcome.resolved () ∧ allMatchedCalled d e p false :=
  ⟨broadcast_resolved d e p hmw hfast,
   allMatchedCalled_broadcast d e p hmw (handlersFor_all_fast d.handlers hfast e)⟩

/-- C7 (confirmed): when no middleware throws and every registered
handler's promise settles within the dispatch window, `group` dispatches
every entry in broadcast mode — every matched handler of every entry is
invoked, whatever any other entry's handlers do — and the promise
returned by `group` resolves, with no constraint on handler outcomes, so
handler rejections in one entry neither reject the group nor prevent any
other entry's handlers from running. -/
theorem c7_group_entries_independent (d : Dispatcher α β ε)
    (entries : List (String × α))
    (hmw : firstRaise d.middleware = none) (hfast : allFastB d.handlers = true) :
    groupOutcome d entries = Outcome.resolved ()
    ∧ ∀ en ∈ entries, allMatchedCalled d en.1 en.2 false :=
  ⟨group_resolved d entries hmw hfast,
   fun en _ => allMatchedCalled_broadcast d en.1 en.2 hmw
     (handlersFor_all_fast d.handlers hfast en.1)⟩

/-- C8 (confirmed): for an emitted event name other than the literal
`"*"` (the spec's data model stipulates an emitted name is never `"*"`
itself), when no middleware throws and the exact-tier handlers settle,
the handler invocations bearing the registry key `"*"` in the dispatch
trace are exactly one wildcard-tier invocation per handler registered
under `"*"`, in registration order — each wildcard handler is invoked
exactly once per dispatch, regardless of what else the event matches. -/
theorem c8_wildcard_once (d : Dispatcher α β ε) (e : String) (p : α)
    (hne : e ≠ "*") (hmw : firstRaise d.middleware = none)
    (hfastEx : (handlersFor d.handlers e).all (·.fast) = true) :
    (dispatchTrace d e p false).filter (Ev.isCallKey "*")
      = phaseCalls Tier.wcP "*" (handlersFor d.handlers "*") e p :=
  filter_star_trace d e p hne hmw hfastEx

/-- C9 counterexample: the claim as stated is false at the key
`"a.*.b.*"` and event name `"a.*.b.c"` — the key ends with the marker and
its trailing-marker-stripped form `"a.*.b"` is a string-prefix of the
event name, so the claim requires the key to be triggered, but the code
strips the first occurrence of `".*"` (yielding `"a.b.*"`), does not
match, and dispatches no namespace-tier invocation at all. -/
theorem c9_counterexample :
    claimNsMatches "a.*.b.*" "a.*.b.c" = true
    ∧ dDoubleStar.handlers.map (·.1) = ["a.*.b.*"]
    ∧ nsMatches "a.*.b.*" "a.*.b.c" = false
    ∧ (dispatchTrace dDoubleStar "a.*.b.c" 0 false).filter
        (Ev.isHCallTier Tier.nsP) = [] := by decide

/-- C9 (corrected): on every dispatch with no throwing middleware and
settling exact-tier handlers, the namespace keys triggered are exactly
the registry keys that end with `".*"` and whose form with the first
occurrence of `".*"` removed — the source's `replace('.*','')`, which
coincides with stripping the trailing marker whenever `".*"` occurs only
at the key's end — is a string-prefix of the event name; the namespace
invocations of the trace are precisely all handlers under the triggered
keys, in registry order, each invoked with the original payload and the
emitted event name, and no other key is triggered. -/
theorem c9_namespace_matching (d : Dispatcher α β ε) (e : String) (p : α)
    (hmw : firstRaise d.middleware = none)
    (hfastEx : (handlersFor d.handlers e).all (·.fast) = true) :
    nsKeys d.handlers e
      = (d.handlers.map (·.1)).filter
          (fun k => strEndsWith k ".*" && strStartsWith e (replaceFirst k ".*"))
    ∧ (dispatchTrace d e p false).filter (Ev.isHCallTier Tier.nsP)
      = (nsKeys d.handlers e).flatMap fun k =>
          phaseCalls Tier.nsP k (handlersFor d.handlers k) e p :=
  ⟨rfl, by rw [filter_ns_trace d e p hmw hfastEx, nsCallsOf]⟩

/-- C10 counterexample: the claim as stated is false at the key
`"a.*.b.*"` — it ends in `".*"`, yet dispatching the event `"a.*.b.*"`
invokes its handler once (exact tier only), not twice: the code's
first-occurrence strip yields `"a.b.*"`, which is not a prefix of the
key, so the namespace tier does not re-match. -/
theorem c10_counterexample :
    strEndsWith "a.*.b.*" ".*" = true
    ∧ dDoubleStar.handlers.map (·.1) = ["a.*.b.*"]
    ∧ (dispatchTrace dDoubleStar "a.*.b.*" 0 false).filter
        (Ev.isCallKey "a.*.b.*")
      = [Ev.hCall Tier.exactP "a.*.b.*" 0 "a.*.b.*" 0] := by decide

/-- C10 (corrected): for a registry key `k` ending in `".*"` whose
first-occurrence strip coincides with removing the trailing marker (which
holds whenever `".*"` occurs in `k` only at its end, as in `"user.*"`),
dispatching the event named exactly `k` (no throwing middleware, distinct
registry keys, settling handlers) invokes each handler under `k` exactly
twice: once in the exact phase and once again in the namespace phase. -/
theorem c10_marker_key_double_invocation (d : Dispatcher α β ε) (k : String) (p : α)
    (hmw : firstRaise d.middleware = none)
    (hnd : (d.handlers.map (·.1)).Nodup)
    (hk : k ∈ d.handlers.map (·.1))
    (hend : strEndsWith k ".*" = true)
    (hstrip : replaceFirst k ".*" = strDropLast2 k)
    (hfastEx : (handlersFor d.handlers k).all (·.fast) = true) :
    (dispatchTrace d k p false).filter (Ev.isCallKey k)
      = phaseCalls Tier.exactP k (handlersFor d.handlers k) k p
        ++ phaseCalls Tier.nsP k (handlersFor d.handlers k) k p := by
  have hmatch : nsMatches k k = true := by
    rw [nsMatches, hstrip, Bool.and_eq_true]
    exact ⟨hend, strStartsWith_dropLast2 k⟩
  exact filter_key_trace_marker d k p hmw hnd hk hmatch hfastEx

/-- Witness for C5 at a dispatcher with two well-behaved middleware. -/
theorem c5_middleware_first_witness :
    firstRaise dW5.middleware = none
    ∧ (dispatchTrace dW5 "e" 1 false
        = ((List.range dW5.middleware.length).map fun i => Ev.mwCall i "e" 1)
          ++ handlerPhase dW5 "e" 1 false
      ∧ ∀ ev ∈ handlerPhase dW5 "e" 1 false, ev.isMwCall = false) :=
  ⟨by decide, c5_middleware_first dW5 "e" 1 false (by decide)⟩

/-- Witness for C6 at a dispatcher whose exact handler rejects while a
namespace key and the wildcard key also match. -/
theorem c6_emit_isolates_failures_witness :
    (firstRaise dW6.middleware = none ∧ allFastB dW6.handlers = true)
    ∧ (broadcastOutcome dW6 "a" 3 = Outcome.resolved ()
        ∧ allMatchedCalled dW6 "a" 3 false) :=
  ⟨⟨by decide, by decide⟩, c6_emit_isolates_failures dW6 "a" 3 (by decide) (by decide)⟩

/-- Witness for C7 at two entries, the first of which has a rejecting
handler. -/
theorem c7_group_entries_independent_witness :
    (firstRaise dW7.middleware = none ∧ allFastB dW7.handlers = true)
    ∧ (groupOutcome dW7 [("e", 1), ("f", 2)] = Outcome.resolved ()
        ∧ ∀ en ∈ [(("e" : String), (1 : Nat)), ("f", 2)],
            allMatchedCalled dW7 en.1 en.2 false) :=
  ⟨⟨by decide, by decide⟩,
   c7_group_entries_independent dW7 [("e", 1), ("f", 2)] (by decide) (by decide)⟩

/-- Witness for C8 at an event matching all three tiers. -/
theorem c8_wildcard_once_witness :
    (("u.c" : String) ≠ "*"
      ∧ firstRaise dW8.middleware = none
      ∧ (handlersFor dW8.handlers "u.c").all (·.fast) = true)
    ∧ (dispatchTrace dW8 "u.c" 9 false).filter (Ev.isCallKey "*")
        = phaseCalls Tier.wcP "*" (handlersFor dW8.handlers "*") "u.c" 9 :=
  ⟨⟨by decide, by decide, by decide⟩,
   c8_wildcard_once dW8 "u.c" 9 (by decide) (by decide) (by decide)⟩

/-- Witness for C9 at a registry with one matching and one non-matching
namespace key. -/
theorem c9_namespace_matching_witness :
    (firstRaise dW9.middleware = none
      ∧ (handlersFor dW9.handlers "ns.foo").all (·.fast) = true)
    ∧ (nsKeys dW9.handlers "ns.foo"
        = (dW9.handlers.map (·.1)).filter
            (fun k => strEndsWith k ".*" && strStartsWith "ns.foo" (replaceFirst k ".*"))
      ∧ (dispatchTrace dW9 "ns.foo" 4 false).filter (Ev.isHCallTier Tier.nsP)
        = (nsKeys dW9.handlers "ns.foo").flatMap fun k =>
            phaseCalls Tier.nsP k (handlersFor dW9.handlers k) "ns.foo" 4) :=
  ⟨⟨by decide, by decide⟩,
   c9_namespace_matching dW9 "ns.foo" 4 (by decide) (by decide)⟩

/-- Witness for C10 at the key `"user.*"` with two handlers. -/
theorem c10_marker_key_double_invocation_witness :
    (firstRaise dW10.middleware = none
      ∧ (dW10.handlers.map (·.1)).Nodup
      ∧ "user.*" ∈ dW10.handlers.map (·.1)
      ∧ strEndsWith "user.*" ".*" = true
      ∧ replaceFirst "user.*" ".*" = strDropLast2 "user.*"
      ∧ (handlersFor dW10.handlers "user.*").all (·.fast) = true)
    ∧ (dispatchTrace dW10 "user.*" 6 false).filter (Ev.isCallKey "user.*")
        = phaseCalls Tier.exactP "user.*" (handlersFor dW10.handlers "user.*") "user.*" 6
          ++ phaseCalls Tier.nsP "user.*" (handlersFor dW10.handlers "user.*") "user.*" 6 :=
  ⟨⟨by decide, by decide, by decide, by decide, by decide, by decide⟩,
   c10_marker_key_double_invocation dW10 "user.*" 6 (by decide) (by decide) (by decide)
     (by decide) (by decide) (by decide)⟩

end TypedEvents
